import Mathlib

/-!
Verification of the LED effect-layer core (led/effects.py).

This file gives a shallow embedding of the stateful effect layers of the
repository and proves the testable properties stated in the specification
against that embedding:

* `HeadsetResponsiveEffectLayer` — the smoothing / fade state machine
  (`start_fade`, `end_fade`, `render`), embedded as a pure step function
  `hrRender` on an explicit state record, with real time and EEG values
  modelled by rationals.
* `ImpulseLayer2.Impulse` — graph random-walk entities (`move`,
  `_move_to_any_of`, `render`) and the layer's `_reap_pulses`.  The global
  random number generator is modelled by an explicit tape of draws: each
  `random.random() < chance` test becomes a boolean on the tape and each
  `random.choice(xs)` becomes an arbitrary index into `xs`.
* `Bolt` / `LightningStormLayer` — branching bolt path construction
  (`choose_random_path`), per-frame intensity (`update_frame`), and the
  purge / spawn logic of `LightningStormLayer.render` (`stormStep`).
  The transcendental `math.cos` is modelled by an arbitrary function
  bounded by 1 in absolute value, the only property the code relies on.
* `FireflySwarm.Firefly` — phase-coupled oscillators (`phi`, `activation`,
  `activation_to_phi`, `nudge`, `update`).  The floating `pow(x, 0.5)` is
  modelled by the exact rational square root `Rat.sqrt` (exact on squares,
  a floor approximation elsewhere), and Python's `%` on nonnegative
  divisors by `pymod`.

Python truthiness is modelled faithfully where the code relies on it:
`if self.fading_to:` and `if not self.last_response_level:` treat the
float 0.0 like `None` (`isTruthyQ`), and `if not self.last_time:` treats
time 0.0 like `None`.
-/

/-- RGB triple of rational color channels (one LED slot of the frame). -/
abbrev RGB : Type := ℚ × ℚ × ℚ

/-- Componentwise addition, as performed by `mixAdd`. -/
def rgbAdd (u v : RGB) : RGB := (u.1 + v.1, u.2.1 + v.2.1, u.2.2 + v.2.2)

/-- Componentwise scaling of a color, as in `numpy.multiply(self.color, s)`. -/
def rgbScale (u : RGB) (s : ℚ) : RGB := (u.1 * s, u.2.1 * s, u.2.2 * s)

/-! ## Headset-responsive layer (`HeadsetResponsiveEffectLayer`) -/

/-- One headset reading (`threads.HeadsetThread.EEGInfo`).  `value` is the
field named by `respond_to` (attention or meditation); `eid` models Python
object identity, which is what `params.eeg != self.last_eeg` compares. -/
structure EEGInfo where
  value : ℚ
  isOn : Bool
  eid : Nat
deriving DecidableEq

/-- Python truthiness of an optional float: `None` and `0.0` are falsy. -/
def isTruthyQ : Option ℚ → Bool
  | none => false
  | some x => decide (x ≠ 0)

/-- Mutable state of a `HeadsetResponsiveEffectLayer` instance. -/
structure HRState where
  measurements : List ℚ
  timestamps : List ℚ
  last_eeg : Option EEGInfo
  last_response_level : Option ℚ
  fading_to : Option ℚ
deriving DecidableEq

/-- The state set up by `HeadsetResponsiveEffectLayer.__init__`. -/
def initHRState : HRState :=
  { measurements := [], timestamps := [], last_eeg := none,
    last_response_level := none, fading_to := none }

/-- `start_fade`: if there is no (truthy) steady value yet, adopt the new
level immediately, otherwise begin fading toward it. -/
def start_fade (s : HRState) (new_level : ℚ) : HRState :=
  if isTruthyQ s.last_response_level then { s with fading_to := some new_level }
  else { s with last_response_level := some new_level }

/-- `end_fade`: commit the fade target as the steady value. -/
def end_fade (s : HRState) : HRState :=
  { s with last_response_level := s.fading_to, fading_to := none }

/-- The trimming scan of `render`: index of the first timestamp whose age
relative to `t0` exceeds the window `W` (the `while idx < N` loop). -/
def findCut (W t0 : ℚ) : List ℚ → Option Nat
  | [] => none
  | τ :: rest => if W < t0 - τ then some 0 else (findCut W t0 rest).map (· + 1)

/-- History trimming as performed inside `render`: both lists are truncated
to `idx + 1` at the first expired timestamp, keeping that first expired
sample as the cut boundary.  The scan reads `self.timestamps[idx]` for
`idx < len(self.measurements)` and compares against `self.timestamps[0]`. -/
def pruneHistory (W : ℚ) (ms ts : List ℚ) : List ℚ × List ℚ :=
  match findCut W (ts.headD 0) (ts.take ms.length) with
  | some i => (ms.take (i + 1), ts.take (i + 1))
  | none => (ms, ts)

/-- The newness test `params.eeg != self.last_eeg` (object identity). -/
def eegIsNew (e : EEGInfo) (last : Option EEGInfo) : Bool :=
  match last with
  | none => true
  | some l => decide (e.eid ≠ l.eid)

/-- The `elif self.fading_to:` branch of `render` (and the fall-through
that leaves `response_level = None`).  `timestamps[0]` and
`last_response_level` are read with default 0: in every state in which
this branch runs after a fade was started they are present, and Python
would raise on the unreachable `None` cases. -/
def hrFadeStep (now : ℚ) (s : HRState) : HRState × Option ℚ :=
  if isTruthyQ s.fading_to then
    if 1 ≤ now - s.timestamps.headD 0 then
      (end_fade s, (end_fade s).last_response_level)
    else
      (s, some ((now - s.timestamps.headD 0) * s.fading_to.getD 0 +
        (1 - (now - s.timestamps.headD 0)) * s.last_response_level.getD 0))
  else (s, none)

/-- The new-reading branch of `HeadsetResponsiveEffectLayer.render`
(`W` is `smooth_response_over_n_secs`). -/
def hrNewReading (W now : ℚ) (e : EEGInfo) (s : HRState) : HRState :=
  -- a new distinct "on" reading: commit any pending (truthy) fade first,
  -- prepend the measurement, trim the window, then start (or adopt) a fade
  -- toward the mean when at least two samples remain
  let s0 := if isTruthyQ s.fading_to then end_fade s else s
  let pr := pruneHistory W (e.value :: s0.measurements) (now :: s0.timestamps)
  let s1 := { s0 with measurements := pr.1, timestamps := pr.2, last_eeg := some e }
  if 1 < pr.1.length then start_fade s1 (pr.1.sum / (pr.1.length : ℚ)) else s1

/-- One call of `HeadsetResponsiveEffectLayer.render`, as a pure step:
given the window `W` (`smooth_response_over_n_secs`), the current time
`now`, and this tick's `params.eeg`, produce the updated layer state and
the `response_level` passed to `render_responsive`. -/
def hrRender (W now : ℚ) (eeg : Option EEGInfo) (s : HRState) : HRState × Option ℚ :=
  match eeg with
  | some e =>
    if e.isOn && eegIsNew e s.last_eeg then
      (hrNewReading W now e s, (hrNewReading W now e s).last_response_level)
    else hrFadeStep now s
  | none => hrFadeStep now s

/-! ## Graph model (external `model` object, consumed read-only) -/

/-- The sculpture graph, as consumed by the effect layers.  Edges and nodes
are numbered; `edges` gives the endpoint node pair of an edge,
`edgeListForNodes` the edges at a node, `outwardAdjacency` the edges one
step further from the root. -/
structure LedModel where
  edges : Nat → Nat × Nat
  edgeListForNodes : Nat → List Nat
  edgeHeight : Nat → Nat
  roots : List Nat
  outwardAdjacency : Nat → List Nat
  addressForEdge : Nat → String
  addressMatchesAnyP : String → List String → Bool

/-- `random.choice xs` with the random draw made explicit as an index `k`;
every element of `xs` is obtainable for a suitable `k`. -/
def chooseD (k : Nat) (xs : List Nat) : Nat := xs.getD (k % xs.length) 0

/-! ## Traveling impulses (`ImpulseLayer2.Impulse`) -/

/-- State of one impulse entity. -/
structure Impulse where
  color : RGB
  edge : Nat
  previous_edge : Option Nat
  dead : Bool
  motion : String
deriving DecidableEq

/-- `Impulse.__init__(color, edge, motion="Out")`.  The body assigns the
string literal `"Out"`, not the `motion` parameter, so the argument is
ignored. -/
def Impulse.init (color : RGB) (edge : Nat) (motion : String) : Impulse :=
  { color := color, edge := edge, previous_edge := none, dead := false,
    motion := "Out" }

/-- The random draws consumed by one level of `Impulse.move`:
`loopHit` is `random.random() < self.loopChance`, `choiceIx` the index
drawn by `random.choice`, `bounceHit` is `random.random() < self.bounceChance`
(always `false` when the bounce probability is zero). -/
structure MoveRand where
  loopHit : Bool
  choiceIx : Nat
  bounceHit : Bool

/-- The address whitelist used by loop motion. -/
def loopPatterns : List String := ["*.*.*.*.*", "*.*.*.*.1.2", "*.*.*.*.2.1"]

/-- `_node_incoming_and_outgoing`: the node shared with the previous edge
and the other node.  `none` models the exceptions Python raises when there
is no previous edge or the edges share no node. -/
def nodeInOut (model : LedModel) (s : Impulse) : Option (Nat × Nat) :=
  match s.previous_edge with
  | none => none
  | some pe =>
    match model.edges s.edge, model.edges pe with
    | (n1, n2), (p1, p2) =>
      match (if n1 = p1 ∨ n1 = p2 then some n1
             else if n2 = p1 ∨ n2 = p2 then some n2 else none) with
      | none => none
      | some fn =>
        if n1 ≠ fn then some (fn, n1)
        else if n2 ≠ fn then some (fn, n2)
        else none

/-- The mode-toggle `elif` chain at the top of `move` (entered when the
loop-chance draw hits); `h` is the height of the current edge. -/
def loopToggle (h : Nat) (s : Impulse) : Impulse :=
  if s.motion = "Out" ∧ h = 4 then { s with motion := "Loop" }
  else if s.motion = "In" ∧ h = 5 then { s with motion := "Loop" }
  else if s.motion = "Loop" ∧ h = 5 then { s with motion := "Out" }
  else if s.motion = "Loop" ∧ h = 4 then { s with motion := "In" }
  else s

/-- The initial candidate list of `move`: every edge at either endpoint of
the current edge, except the current edge itself. -/
def baseToEdges (model : LedModel) (s : Impulse) : List Nat :=
  ((model.edgeListForNodes (model.edges s.edge).1).filter (fun e => e ≠ s.edge)) ++
  ((model.edgeListForNodes (model.edges s.edge).2).filter (fun e => e ≠ s.edge))

/-- The candidate edges `to_edges` computed by `move` for the current
motion mode (after any toggle): strict height increase for `"Out"`,
strict decrease for `"In"`, the address-whitelisted adjacency of the
outgoing node for `"Loop"` (where `none` models the exception raised by
`_node_incoming_and_outgoing` on a missing previous edge). -/
def candidatesFor (model : LedModel) (s : Impulse) : Option (List Nat) :=
  if s.motion = "Loop" then
    (nodeInOut model s).map (fun io =>
      ((model.edgeListForNodes io.2).filter (fun e => e ≠ s.edge)).filter
        (fun e => model.addressMatchesAnyP (model.addressForEdge e) loopPatterns))
  else if s.motion = "Out" then
    some ((baseToEdges model s).filter
      (fun e => model.edgeHeight s.edge < model.edgeHeight e))
  else if s.motion = "In" then
    some ((baseToEdges model s).filter
      (fun e => model.edgeHeight e < model.edgeHeight s.edge))
  else some (baseToEdges model s)

/-- `_move_to_any_of`: remember the current edge and jump to a random
candidate. -/
def moveToAnyOf (ix : Nat) (te : List Nat) (s : Impulse) : Impulse :=
  { s with previous_edge := some s.edge, edge := chooseD ix te }

/-- The state after the loop-chance toggle at the top of `move`. -/
def afterToggle (model : LedModel) (r : MoveRand) (s0 : Impulse) : Impulse :=
  if r.loopHit then loopToggle (model.edgeHeight s0.edge) s0 else s0

/-- `Impulse.move`, with the recursion of the bounce retry driven by the
tape of random draws (one `MoveRand` per recursive level; the empty tape
models the `RecursionError` of an unbounded retry chain, and `none` also
models the exception raised inside loop motion without a previous edge). -/
def Impulse.move (model : LedModel) : List MoveRand → Impulse → Option Impulse
  | [], _ => none
  | r :: rest, s0 =>
    match candidatesFor model (afterToggle model r s0) with
    | none => none
    | some [] =>
      if r.bounceHit then
        if (afterToggle model r s0).motion = "Out" then
          Impulse.move model rest { afterToggle model r s0 with motion := "In" }
        else if (afterToggle model r s0).motion = "In" then
          Impulse.move model rest { afterToggle model r s0 with motion := "Out" }
        else some { afterToggle model r s0 with dead := true }
      else some { afterToggle model r s0 with dead := true }
    | some (e :: es) => some (moveToAnyOf r.choiceIx (e :: es) (afterToggle model r s0))

/-- `Impulse.render`: a dead impulse contributes nothing; a live one adds
its color to its edge's slot.  (`List.set` out of range is a no-op where
Python would raise an `IndexError`.) -/
def Impulse.render (s : Impulse) (frame : List RGB) : List RGB :=
  if s.dead then frame
  else frame.set s.edge (rgbAdd (frame.getD s.edge (0, 0, 0)) s.color)

/-- `ImpulseLayer2._reap_pulses`: every slot holding a dead impulse is
emptied. -/
def reap_pulses (ps : List (Option Impulse)) : List (Option Impulse) :=
  ps.map (fun p =>
    match p with
    | some q => if q.dead then none else some q
    | none => none)

/-! ## Lightning bolts (`Bolt`, `LightningStormLayer`) -/

def PULSE_INTENSITY : ℚ := 2 / 25

def FADE_TIME : ℚ := 1 / 4

def SECONDARY_BRANCH_INTENSITY : ℚ := 2 / 5

/-- `leader_intensity = 1.0 - Bolt.PULSE_INTENSITY` in `choose_random_path`. -/
def leaderIntensity : ℚ := 1 - PULSE_INTENSITY

/-- `branch_intensity = leader_intensity * Bolt.SECONDARY_BRANCH_INTENSITY`. -/
def branchIntensity : ℚ := leaderIntensity * SECONDARY_BRANCH_INTENSITY

/-- The violet storm color `[v / 255 for v in [230, 230, 255]]`. -/
def boltColor : RGB := (46 / 51, 46 / 51, 1)

/-- The `while model.outwardAdjacency[leader]:` loop of `choose_random_path`:
edges and intensities appended after position `k` of the choice tape, with
`fuel` bounding the number of iterations (the code relies on the model
being acyclic outward). -/
def boltSegs (model : LedModel) (tape : Nat → Nat) :
    Nat → Nat → Nat → Option (List Nat × List ℚ)
  | 0, _, leader =>
    if model.outwardAdjacency leader = [] then some ([], []) else none
  | fuel' + 1, k, leader =>
    if model.outwardAdjacency leader = [] then some ([], [])
    else
      match boltSegs model tape fuel' (k + 1)
          (chooseD (tape k) (model.outwardAdjacency leader)) with
      | none => none
      | some (es, is) =>
        some (model.outwardAdjacency leader ++ es,
          (model.outwardAdjacency leader).map
            (fun e => if e = chooseD (tape k) (model.outwardAdjacency leader)
              then leaderIntensity else branchIntensity) ++ is)

/-- `Bolt.choose_random_path`: pick a root (choice 0 of the tape), then
extend the leader until it has no outward edges.  `none` models the
exception on an empty root list and the nontermination cut-off. -/
def choose_random_path (model : LedModel) (tape : Nat → Nat) (fuel : Nat) :
    Option (List Nat × List ℚ) :=
  if model.roots = [] then none
  else
    (boltSegs model tape fuel 1 (chooseD (tape 0) model.roots)).map
      (fun p => (chooseD (tape 0) model.roots :: p.1, leaderIntensity :: p.2))

/-- A bolt, as built by `Bolt.__init__`: fixed path, intensities, creation
time, pulse duration (drawn from `uniform(.25, .35)`) and
`life_time = pulse_time + FADE_TIME`. -/
structure Bolt where
  init_time : ℚ
  pulse_time : ℚ
  life_time : ℚ
  color : RGB
  edges : List Nat
  intensities : List ℚ
deriving DecidableEq

/-- `Bolt.__init__(model, init_time)` with the randomness explicit:
`pt` is the drawn `pulse_time` and `tape` drives `choose_random_path`. -/
def mkBolt (model : LedModel) (tape : Nat → Nat) (fuel : Nat) (pt t : ℚ) :
    Option Bolt :=
  (choose_random_path model tape fuel).map (fun p =>
    { init_time := t, pulse_time := pt, life_time := pt + FADE_TIME,
      color := boltColor, edges := p.1, intensities := p.2 })

/-- The scalar factor applied to the bolt color on path position `i` at
elapsed time `dt` in `update_frame`: cosine-modulated base intensity while
pulsing, linear fade afterwards.  `cosfn dt` models
`math.cos(2 * math.pi * dt * Bolt.PULSE_FREQUENCY)`. -/
def boltEdgeScale (b : Bolt) (cosfn : ℚ → ℚ) (dt : ℚ) (i : Nat) : ℚ :=
  if dt < b.pulse_time then b.intensities.getD i 0 + cosfn dt * PULSE_INTENSITY
  else (1 - (dt - b.pulse_time) / FADE_TIME) * b.intensities.getD i 0

/-- `Bolt.update_frame`: add the scaled color onto every edge of the path. -/
def update_frame (b : Bolt) (cosfn : ℚ → ℚ) (frame : List RGB) (time : ℚ) :
    List RGB :=
  (List.range b.edges.length).foldl (fun fr i =>
    fr.set (b.edges.getD i 0)
      (rgbAdd (fr.getD (b.edges.getD i 0) (0, 0, 0))
        (rgbScale b.color (boltEdgeScale b cosfn (time - b.init_time) i)))) frame

/-- Mutable state of a `LightningStormLayer`. -/
structure StormState where
  bolts : List Bolt
  last_time : Option ℚ
  bolt_every : ℚ

/-- The state transition of `LightningStormLayer.render`: purge expired
bolts, then spawn `nb` (the bolt `Bolt(model, params.time)` would build)
exactly when `(params.time - self.last_time) / self.bolt_every` exceeds
the uniform draw.  `if not self.last_time:` is Python truthiness: both
`None` and time `0.0` reset `last_time` to the current time. -/
def stormStep (time draw : ℚ) (nb : Bolt) (st : StormState) : StormState :=
  let lt := match st.last_time with
            | none => time
            | some l => if l = 0 then time else l
  { bolts :=
      st.bolts.filter (fun b => decide (time < b.init_time + b.life_time)) ++
        (if draw < (time - lt) / st.bolt_every then [nb] else []),
    last_time := some time,
    bolt_every := st.bolt_every }

/-- `LightningStormLayer.render`: the state transition followed by drawing
every surviving bolt into the frame. -/
def stormRender (cosfn : ℚ → ℚ) (time draw : ℚ) (nb : Bolt) (st : StormState)
    (frame : List RGB) : StormState × List RGB :=
  let st' := stormStep time draw nb st
  (st', st'.bolts.foldl (fun fr b => update_frame b cosfn fr time) frame)

/-! ## Firefly oscillators (`FireflySwarm.Firefly`) -/

def CYCLE_TIME : ℚ := 3 / 2

def NUDGE : ℚ := 3 / 20

/-- Python's `x % c` for rationals (`c > 0`): `x - c * floor (x / c)`. -/
def pymod (x c : ℚ) : ℚ := x - c * ⌊x / c⌋

/-- `Firefly.phi`: current time plus offset, wrapped into a cycle,
normalized, plus the fixed `0.01` bias. -/
def phi (t offset : ℚ) : ℚ := pymod (t + offset) CYCLE_TIME / CYCLE_TIME + 1 / 100

/-- `Firefly.activation`: `pow(phi, 1 / EXP)` with `EXP = 2.0`, modelled by
the exact rational square root (exact whenever the argument is the square
of a rational, which is the case on every value the nudge feeds back). -/
def activation (p : ℚ) : ℚ := Rat.sqrt p

/-- `Firefly.activation_to_phi`: `pow(f, EXP)` with `EXP = 2.0`. -/
def activation_to_phi (f : ℚ) : ℚ := f * f

/-- State of one firefly oscillator. -/
structure Firefly where
  offset : ℚ
  edge : Nat
  blinktime : ℚ
deriving DecidableEq

/-- `Firefly.update`: record the blink time when activation crosses the
threshold; report whether it did. -/
def Firefly.update (t : ℚ) (fly : Firefly) : Firefly × Bool :=
  if 1 ≤ activation (phi t fly.offset) then ({ fly with blinktime := t }, true)
  else (fly, false)

/-- `Firefly.nudge`: if not already blinking, raise the activation by
`NUDGE` saturating at 1, map back to a phase, advance the offset
accordingly, then re-run `update`. -/
def Firefly.nudge (t : ℚ) (fly : Firefly) : Firefly :=
  if activation (phi t fly.offset) < 1 then
    (Firefly.update t
      { fly with
        offset := fly.offset +
          max (activation_to_phi (min (activation (phi t fly.offset) + NUDGE) 1) -
            phi t fly.offset) 0 * CYCLE_TIME }).1
  else fly

/-! ## Helper lemmas -/

/-- Predicate for a timestamp still inside the window (not expired). -/
def inWindow (W t0 τ : ℚ) : Bool := !decide (W < t0 - τ)

theorem findCut_none_takeWhile (W t0 : ℚ) :
    ∀ l : List ℚ, findCut W t0 l = none →
      l.takeWhile (inWindow W t0) = l := by
  intro l
  induction l with
  | nil => intro _; rfl
  | cons a l ih =>
    intro h
    simp only [findCut] at h
    by_cases ha : W < t0 - a
    · rw [if_pos ha] at h; exact absurd h (by simp)
    · rw [if_neg ha, Option.map_eq_none'] at h
      rw [List.takeWhile_cons, if_pos (by simp [inWindow, ha]), ih h]

theorem findCut_some_lt (W t0 : ℚ) :
    ∀ (l : List ℚ) (i : Nat), findCut W t0 l = some i → i < l.length := by
  intro l
  induction l with
  | nil => intro i h; simp [findCut] at h
  | cons a l ih =>
    intro i h
    simp only [findCut] at h
    by_cases ha : W < t0 - a
    · rw [if_pos ha] at h
      simp only [Option.some.injEq] at h
      simp [← h]
    · rw [if_neg ha, Option.map_eq_some'] at h
      obtain ⟨j, hj, hji⟩ := h
      have := ih j hj
      simp only [List.length_cons]
      omega

theorem findCut_some_take (W t0 : ℚ) :
    ∀ (l : List ℚ) (i : Nat), findCut W t0 l = some i →
      l.take (i + 1) =
        l.takeWhile (inWindow W t0) ++
          (l.dropWhile (inWindow W t0)).take 1 := by
  intro l
  induction l with
  | nil => intro i h; simp [findCut] at h
  | cons a l ih =>
    intro i h
    simp only [findCut] at h
    by_cases ha : W < t0 - a
    · rw [if_pos ha] at h
      simp only [Option.some.injEq] at h
      subst h
      rw [List.takeWhile_cons, if_neg (by simp [inWindow, ha]),
        List.dropWhile_cons, if_neg (by simp [inWindow, ha])]
      simp
    · rw [if_neg ha, Option.map_eq_some'] at h
      obtain ⟨j, hj, hji⟩ := h
      subst hji
      rw [List.takeWhile_cons, if_pos (by simp [inWindow, ha]),
        List.dropWhile_cons, if_pos (by simp [inWindow, ha]),
        List.take_succ_cons, ih j hj]
      simp

/-! ## C1 — first reading -/

/-- C1, counterexample: with empty history and no steady value, the tick
that processes the very first distinct "on" reading (value 7/10) passes
`None` to `render_responsive`, not the reading: `start_fade` is only
reached once at least two samples are in the window. -/
theorem first_reading_emits_none_cex :
    (hrRender 5 0 (some ⟨7 / 10, true, 1⟩) initHRState).2 = none ∧
      (none : Option ℚ) ≠ some (7 / 10) := by
  constructor
  · norm_num [hrRender, hrNewReading, hrFadeStep, pruneHistory, findCut, start_fade,
      end_fade, isTruthyQ, eegIsNew, initHRState]
  · simp

/-- C1, amended: with empty history and no steady value, the first
distinct "on" reading is recorded in the history but the response level
passed on that same tick is `None`; the value first influences the output
when a second reading arrives inside the window — the mean of the two
samples is then adopted immediately as the steady value (no fade), and
emitted on that second tick. -/
theorem first_two_readings_response (W t1 t2 v1 v2 : ℚ) (i1 i2 : Nat)
    (hW : 0 ≤ W) (hid : i2 ≠ i1) (hwin : t2 - t1 ≤ W) :
    (hrRender W t1 (some ⟨v1, true, i1⟩) initHRState).2 = none ∧
    (hrRender W t1 (some ⟨v1, true, i1⟩) initHRState).1.measurements = [v1] ∧
    (hrRender W t1 (some ⟨v1, true, i1⟩) initHRState).1.last_response_level = none ∧
    (hrRender W t2 (some ⟨v2, true, i2⟩)
        (hrRender W t1 (some ⟨v1, true, i1⟩) initHRState).1).2 = some ((v2 + v1) / 2) ∧
    (hrRender W t2 (some ⟨v2, true, i2⟩)
        (hrRender W t1 (some ⟨v1, true, i1⟩) initHRState).1).1.last_response_level
      = some ((v2 + v1) / 2) ∧
    (hrRender W t2 (some ⟨v2, true, i2⟩)
        (hrRender W t1 (some ⟨v1, true, i1⟩) initHRState).1).1.fading_to = none := by
  have hfc1 : findCut W t1 [t1] = none := by
    simp [findCut]
    linarith
  have hstep1 : hrRender W t1 (some ⟨v1, true, i1⟩) initHRState =
      ({ measurements := [v1], timestamps := [t1], last_eeg := some ⟨v1, true, i1⟩,
         last_response_level := none, fading_to := none }, none) := by
    simp [hrRender, hrNewReading, eegIsNew, isTruthyQ, initHRState, pruneHistory, hfc1]
  have hfc2 : findCut W t2 [t2, t1] = none := by
    have h1 : ¬ W < 0 := not_lt.mpr hW
    have h2 : ¬ W < t2 - t1 := not_lt.mpr hwin
    simp [findCut, h1, h2]
  have hstep2 : hrRender W t2 (some ⟨v2, true, i2⟩)
      ({ measurements := [v1], timestamps := [t1], last_eeg := some ⟨v1, true, i1⟩,
         last_response_level := none, fading_to := none } : HRState) =
      ({ measurements := [v2, v1], timestamps := [t2, t1],
         last_eeg := some ⟨v2, true, i2⟩,
         last_response_level := some ((v2 + v1) / 2), fading_to := none }, some ((v2 + v1) / 2)) := by
    simp [hrRender, hrNewReading, eegIsNew, isTruthyQ, pruneHistory, hfc2, start_fade, hid]
  rw [hstep1]
  rw [hstep2]
  simp

/-- C1, witness: the amended statement evaluated at window 5, readings
1/2 at time 0 and 1 at time 1. -/
theorem first_two_readings_response_check :
    (0 : ℚ) ≤ 5 ∧ (2 : Nat) ≠ 1 ∧ (1 : ℚ) - 0 ≤ 5 ∧
    (hrRender 5 0 (some ⟨1 / 2, true, 1⟩) initHRState).2 = none ∧
    (hrRender 5 1 (some ⟨1, true, 2⟩)
        (hrRender 5 0 (some ⟨1 / 2, true, 1⟩) initHRState).1).2 = some ((1 + 1 / 2) / 2) := by
  refine ⟨by norm_num, by decide, by norm_num, ?_, ?_⟩
  · exact (first_two_readings_response 5 0 1 (1 / 2) 1 1 2 (by norm_num) (by decide)
      (by norm_num)).1
  · exact (first_two_readings_response 5 0 1 (1 / 2) 1 1 2 (by norm_num) (by decide)
      (by norm_num)).2.2.2.1

/-! ## C2 — fade interpolation -/

/-- A reachable layer state whose fade target is the float 0.0: window 5,
readings 1/2 at time 0, 0 at time 1, 0 at time 7.  The third tick trims
the first sample (keeping none older), leaves the steady value 1/4 and
starts a fade toward the mean 0. -/
def c2CexState : HRState :=
  (hrRender 5 7 (some ⟨0, true, 3⟩)
    (hrRender 5 1 (some ⟨0, true, 2⟩)
      (hrRender 5 0 (some ⟨1 / 2, true, 1⟩) initHRState).1).1).1

/-- C2, counterexample: in `c2CexState` a fade is in progress (steady
value 1/4, fade target 0, most recent measurement at time 7), yet the
render tick at time 7.5 emits `None` rather than the claimed
interpolation (7.5-7)*0 + (1-(7.5-7))*(1/4) = 1/8: `elif self.fading_to:`
treats the target 0.0 as falsy, so the fade neither progresses nor ever
commits. -/
theorem zero_target_fade_stalls_cex :
    c2CexState.fading_to = some 0 ∧
    c2CexState.last_response_level = some (1 / 4) ∧
    c2CexState.timestamps.headD 0 = 7 ∧
    (hrRender 5 (15 / 2) none c2CexState).2 = none ∧
    (hrRender 5 (15 / 2) none c2CexState).2 ≠
      some ((15 / 2 - 7) * 0 + (1 - (15 / 2 - 7)) * (1 / 4)) := by
  have hst : c2CexState =
      { measurements := [0, 0], timestamps := [7, 1],
        last_eeg := some ⟨0, true, 3⟩,
        last_response_level := some (1 / 4), fading_to := some 0 } := by
    norm_num [c2CexState, hrRender, hrNewReading, hrFadeStep, pruneHistory, findCut,
      start_fade, end_fade, isTruthyQ, eegIsNew, initHRState]
  have hrun : (hrRender 5 (15 / 2) none c2CexState).2 = none := by
    rw [hst]
    norm_num [hrRender, hrFadeStep, isTruthyQ]
  refine ⟨by rw [hst], by rw [hst], by rw [hst]; rfl, hrun, ?_⟩
  rw [hrun]
  simp

/-- C2, amended: for every fade in progress with a nonzero target
(`fading_to = some new`, steady value `old`, most recent measurement at
time `T`), a render tick without a new reading at any time `t` with
`T ≤ t < T + 1` emits exactly the linear interpolation
`(t-T)*new + (1-(t-T))*old`; that value lies between `old` and `new` and
moves monotonically toward `new` as `t` increases; and at any time
`tc ≥ T + 1` the fade is committed (steady becomes the target, fade
cleared) and the committed value is emitted.  (A fade whose target is the
float 0.0 is excluded: the code's truthiness test skips it, see the
counterexample.) -/
theorem fade_interpolation_bounds (W t t1 t2 T old new : ℚ) (s : HRState)
    (hf : s.fading_to = some new) (hnz : new ≠ 0)
    (hl : s.last_response_level = some old)
    (hT : s.timestamps.headD 0 = T)
    (h1 : T ≤ t) (h2 : t < T + 1)
    (h3 : T ≤ t1) (h4 : t1 ≤ t2) (h5 : t2 < T + 1) :
    (hrRender W t none s).2 = some ((t - T) * new + (1 - (t - T)) * old) ∧
    min old new ≤ (t - T) * new + (1 - (t - T)) * old ∧
    (t - T) * new + (1 - (t - T)) * old ≤ max old new ∧
    (old ≤ new →
      (t1 - T) * new + (1 - (t1 - T)) * old ≤ (t2 - T) * new + (1 - (t2 - T)) * old) ∧
    (new ≤ old →
      (t2 - T) * new + (1 - (t2 - T)) * old ≤ (t1 - T) * new + (1 - (t1 - T)) * old) ∧
    (∀ tc, T + 1 ≤ tc →
      (hrRender W tc none s).1.last_response_level = some new ∧
      (hrRender W tc none s).1.fading_to = none ∧
      (hrRender W tc none s).2 = some new) := by
  have htr : isTruthyQ s.fading_to = true := by simp [hf, isTruthyQ, hnz]
  have hT' : s.timestamps.head?.getD 0 = T := by simpa using hT
  refine ⟨?_, ?_, ?_, ?_, ?_, ?_⟩
  · have hlt : ¬ (1 ≤ t - T) := by linarith
    simp [hrRender, hrFadeStep, htr, hT', hlt, hf, hl, isTruthyQ, hnz]
  · rcases le_total old new with hc | hc
    · rw [min_eq_left hc]
      nlinarith
    · rw [min_eq_right hc]
      nlinarith
  · rcases le_total old new with hc | hc
    · rw [max_eq_right hc]
      nlinarith
    · rw [max_eq_left hc]
      nlinarith
  · intro hc
    nlinarith
  · intro hc
    nlinarith
  · intro tc htc
    have hge : 1 ≤ tc - T := by linarith
    simp [hrRender, hrFadeStep, htr, hT', hge, end_fade, hf, isTruthyQ, hnz]

/-- State used to witness the amended fade claim: steady value 1/2,
fading toward 1, most recent measurement at time 0. -/
def c2WitState : HRState :=
  { measurements := [1, 1 / 2], timestamps := [0], last_eeg := none,
    last_response_level := some (1 / 2), fading_to := some 1 }

/-- C2, witness: the amended statement evaluated mid-fade at time 1/2 and
at commit time 2. -/
theorem fade_interpolation_bounds_check :
    c2WitState.fading_to = some 1 ∧ (1 : ℚ) ≠ 0 ∧
    c2WitState.last_response_level = some (1 / 2) ∧
    c2WitState.timestamps.headD 0 = 0 ∧
    (0 : ℚ) ≤ 1 / 2 ∧ (1 / 2 : ℚ) < 0 + 1 ∧
    (hrRender 5 (1 / 2) none c2WitState).2 =
      some ((1 / 2 - 0) * 1 + (1 - (1 / 2 - 0)) * (1 / 2)) ∧
    (hrRender 5 2 none c2WitState).2 = some 1 := by
  refine ⟨rfl, by norm_num, rfl, rfl, by norm_num, by norm_num, ?_, ?_⟩
  · exact (fade_interpolation_bounds 5 (1 / 2) (1 / 4) (1 / 2) 0 (1 / 2) 1 c2WitState
      rfl (by norm_num) rfl rfl (by norm_num) (by norm_num) (by norm_num) (by norm_num)
      (by norm_num)).1
  · exact ((fade_interpolation_bounds 5 (1 / 2) (1 / 4) (1 / 2) 0 (1 / 2) 1 c2WitState
      rfl (by norm_num) rfl rfl (by norm_num) (by norm_num) (by norm_num) (by norm_num)
      (by norm_num)).2.2.2.2.2 2 (by norm_num)).2.2

/-! ## C3 — window pruning -/

/-- Run A: window 5, readings 1 at time 0, then 0 at time 6, then 0 at
time 7.  The time-0 sample expires on the tick at time 6. -/
def c3RunA : HRState :=
  (hrRender 5 7 (some ⟨0, true, 3⟩)
    (hrRender 5 6 (some ⟨0, true, 2⟩)
      (hrRender 5 0 (some ⟨1, true, 1⟩) initHRState).1).1).1

/-- Run B: identical except the expired time-0 reading has value 1/2. -/
def c3RunB : HRState :=
  (hrRender 5 7 (some ⟨0, true, 3⟩)
    (hrRender 5 6 (some ⟨0, true, 2⟩)
      (hrRender 5 0 (some ⟨1 / 2, true, 1⟩) initHRState).1).1).1

/-- C3, counterexample: the time-0 measurement is already older than the
5-second window on the tick at time 6, yet on the later tick at time 7 it
still determines the fade target: run A (expired value 1) produces target
(0+0+1)/3 = 1/3 while run B (expired value 1/2) produces (0+0+1/2)/3 = 1/6.
The trim keeps the first out-of-window sample as the cut boundary, so an
expired measurement keeps affecting the rolling mean on later ticks. -/
theorem boundary_sample_persists_cex :
    c3RunA.fading_to = some (1 / 3) ∧ c3RunB.fading_to = some (1 / 6) ∧
      (1 / 3 : ℚ) ≠ 1 / 6 := by
  refine ⟨?_, ?_, by norm_num⟩
  · norm_num [c3RunA, hrRender, hrNewReading, hrFadeStep, pruneHistory, findCut,
      start_fade, end_fade, isTruthyQ, eegIsNew, initHRState]
  · norm_num [c3RunB, hrRender, hrNewReading, hrFadeStep, pruneHistory, findCut,
      start_fade, end_fade, isTruthyQ, eegIsNew, initHRState]

/-- C3, amended: on every tick that processes a new reading, the trimmed
history is exactly the maximal prefix of in-window samples followed by at
most one expired sample — the most recent expired one, kept as the cut
boundary; all older samples are dropped and can no longer affect the
rolling mean.  (An expired measurement therefore stops affecting the mean
only once a strictly newer sample has also expired, not on the first tick
after its own expiry; see the counterexample.) -/
theorem prune_keeps_window_and_boundary (W : ℚ) (ms ts : List ℚ)
    (h : ms.length = ts.length) :
    (pruneHistory W ms ts).2 =
      ts.takeWhile (inWindow W (ts.headD 0)) ++
        (ts.dropWhile (inWindow W (ts.headD 0))).take 1 ∧
    (pruneHistory W ms ts).1 = ms.take (pruneHistory W ms ts).2.length ∧
    (pruneHistory W ms ts).1.length = (pruneHistory W ms ts).2.length ∧
    (∀ τ ∈ ts.takeWhile (inWindow W (ts.headD 0)), ts.headD 0 - τ ≤ W) := by
  have htake : ts.take ms.length = ts := by rw [h]; exact List.take_length ts
  have hmemtw : ∀ τ ∈ ts.takeWhile (inWindow W (ts.headD 0)), ts.headD 0 - τ ≤ W := by
    intro τ hτ
    have := List.mem_takeWhile_imp hτ
    simpa [inWindow, not_lt] using this
  have hforall : ∀ l : List ℚ, findCut W (ts.headD 0) l = none →
      ∀ τ ∈ l, ¬ W < ts.headD 0 - τ := by
    intro l
    induction l with
    | nil => intro _ τ hτ; simp at hτ
    | cons a l ih =>
      intro hn τ hτ
      simp only [findCut] at hn
      by_cases ha : W < ts.headD 0 - a
      · rw [if_pos ha] at hn; exact absurd hn (by simp)
      · rw [if_neg ha, Option.map_eq_none'] at hn
        rcases List.mem_cons.mp hτ with rfl | hmem
        · exact ha
        · exact ih hn τ hmem
  unfold pruneHistory
  rw [htake]
  cases hfc : findCut W (ts.headD 0) ts with
  | none =>
    have htw := findCut_none_takeWhile W (ts.headD 0) ts hfc
    have hdw : ts.dropWhile (inWindow W (ts.headD 0)) = [] := by
      rw [List.dropWhile_eq_nil_iff]
      intro x hx
      unfold inWindow
      rw [Bool.not_eq_true']
      exact decide_eq_false (hforall ts hfc x hx)
    refine ⟨?_, ?_, ?_, hmemtw⟩
    · show ts = _
      rw [htw, hdw]
      simp
    · show ms = List.take ts.length ms
      rw [← h]
      exact (List.take_length ms).symm
    · exact h
  | some i =>
    have hlt := findCut_some_lt W (ts.headD 0) ts i hfc
    have htk := findCut_some_take W (ts.headD 0) ts i hfc
    have hlen : (ts.take (i + 1)).length = i + 1 := by
      rw [List.length_take]
      omega
    refine ⟨htk, ?_, ?_, hmemtw⟩
    · rw [hlen]
    · rw [List.length_take, List.length_take]
      omega

/-- C3, witness: the amended statement evaluated on the history of run A's
third tick (timestamps 7, 6, 0; window 5). -/
theorem prune_keeps_window_and_boundary_check :
    ([0, 0, 1] : List ℚ).length = ([7, 6, 0] : List ℚ).length ∧
    (pruneHistory 5 [0, 0, 1] [7, 6, 0]).2 =
      ([7, 6, 0] : List ℚ).takeWhile (inWindow 5 (([7, 6, 0] : List ℚ).headD 0)) ++
        (([7, 6, 0] : List ℚ).dropWhile (inWindow 5 (([7, 6, 0] : List ℚ).headD 0))).take 1 ∧
    (pruneHistory 5 [0, 0, 1] [7, 6, 0]).1 =
      ([0, 0, 1] : List ℚ).take (pruneHistory 5 [0, 0, 1] [7, 6, 0]).2.length := by
  refine ⟨rfl, ?_, ?_⟩
  · exact (prune_keeps_window_and_boundary 5 [0, 0, 1] [7, 6, 0] rfl).1
  · exact (prune_keeps_window_and_boundary 5 [0, 0, 1] [7, 6, 0] rfl).2.1

/-! ## Impulse helper lemmas -/

theorem chooseD_mem (k e : Nat) (es : List Nat) : chooseD k (e :: es) ∈ e :: es := by
  unfold chooseD
  have hlt : k % (e :: es).length < (e :: es).length := Nat.mod_lt _ (by simp)
  rw [List.getD_eq_getElem (e :: es) 0 hlt]
  exact List.getElem_mem hlt

theorem loopToggle_edge (h : Nat) (s : Impulse) : (loopToggle h s).edge = s.edge := by
  unfold loopToggle
  split_ifs <;> rfl

theorem loopToggle_prev (h : Nat) (s : Impulse) :
    (loopToggle h s).previous_edge = s.previous_edge := by
  unfold loopToggle
  split_ifs <;> rfl

theorem afterToggle_edge (model : LedModel) (r : MoveRand) (s : Impulse) :
    (afterToggle model r s).edge = s.edge := by
  unfold afterToggle
  split_ifs
  · exact loopToggle_edge _ _
  · rfl

theorem afterToggle_prev (model : LedModel) (r : MoveRand) (s : Impulse) :
    (afterToggle model r s).previous_edge = s.previous_edge := by
  unfold afterToggle
  split_ifs
  · exact loopToggle_prev _ _
  · rfl

theorem candidatesFor_out_mem (model : LedModel) (s : Impulse) (te : List Nat)
    (hm : s.motion = "Out") (hc : candidatesFor model s = some te) :
    ∀ e ∈ te, model.edgeHeight s.edge < model.edgeHeight e := by
  unfold candidatesFor at hc
  rw [hm] at hc
  rw [if_neg (by decide), if_pos rfl] at hc
  have hte := Option.some.inj hc
  intro e he
  rw [← hte] at he
  exact of_decide_eq_true (List.mem_filter.mp he).2

theorem candidatesFor_in_mem (model : LedModel) (s : Impulse) (te : List Nat)
    (hm : s.motion = "In") (hc : candidatesFor model s = some te) :
    ∀ e ∈ te, model.edgeHeight e < model.edgeHeight s.edge := by
  unfold candidatesFor at hc
  rw [hm] at hc
  rw [if_neg (by decide), if_neg (by decide), if_pos rfl] at hc
  have hte := Option.some.inj hc
  intro e he
  rw [← hte] at he
  exact of_decide_eq_true (List.mem_filter.mp he).2

/-! ## C4 — height-directed traversal -/

/-- C4: after any `move` step (including bounce retries), if the impulse
actually moved this step (its `previous_edge` was just set to the edge it
came from) then its motion mode at the moment of the move determines the
direction: in `"Out"` mode the new edge's height is strictly greater than
the old edge's height, in `"In"` mode strictly smaller.  The hypothesis
`previous_edge ≠ some edge` rules out the (unreachable) ambiguity of a
state that already records itself as its own predecessor. -/
theorem impulse_move_direction (model : LedModel) :
    ∀ (tape : List MoveRand) (s r : Impulse),
      s.previous_edge ≠ some s.edge →
      Impulse.move model tape s = some r →
      r.previous_edge = some s.edge →
      (r.motion = "Out" → model.edgeHeight s.edge < model.edgeHeight r.edge) ∧
      (r.motion = "In" → model.edgeHeight r.edge < model.edgeHeight s.edge) := by
  intro tape
  induction tape with
  | nil =>
    intro s r _ hmv _
    simp [Impulse.move] at hmv
  | cons r0 rest ih =>
    intro s r hprev hmv hrp
    rw [show Impulse.move model (r0 :: rest) s =
        (match candidatesFor model (afterToggle model r0 s) with
         | none => none
         | some [] =>
           if r0.bounceHit then
             if (afterToggle model r0 s).motion = "Out" then
               Impulse.move model rest { afterToggle model r0 s with motion := "In" }
             else if (afterToggle model r0 s).motion = "In" then
               Impulse.move model rest { afterToggle model r0 s with motion := "Out" }
             else some { afterToggle model r0 s with dead := true }
           else some { afterToggle model r0 s with dead := true }
         | some (e :: es) =>
           some (moveToAnyOf r0.choiceIx (e :: es) (afterToggle model r0 s))) from rfl]
      at hmv
    cases hc : candidatesFor model (afterToggle model r0 s) with
    | none =>
      rw [hc] at hmv
      exact absurd hmv (by simp)
    | some te =>
      rw [hc] at hmv
      cases te with
      | nil =>
        by_cases hb : r0.bounceHit
        · rw [if_pos hb] at hmv
          by_cases ho : (afterToggle model r0 s).motion = "Out"
          · rw [if_pos ho] at hmv
            have hp2 : ({ afterToggle model r0 s with motion := "In" } : Impulse).previous_edge
                ≠ some ({ afterToggle model r0 s with motion := "In" } : Impulse).edge := by
              simp [afterToggle_prev, afterToggle_edge]
              exact fun hcon => hprev hcon
            have hrp2 : r.previous_edge =
                some ({ afterToggle model r0 s with motion := "In" } : Impulse).edge := by
              simp [afterToggle_edge]
              exact hrp
            have := ih { afterToggle model r0 s with motion := "In" } r hp2 hmv hrp2
            simpa [afterToggle_edge] using this
          · rw [if_neg ho] at hmv
            by_cases hin : (afterToggle model r0 s).motion = "In"
            · rw [if_pos hin] at hmv
              have hp2 : ({ afterToggle model r0 s with motion := "Out" } : Impulse).previous_edge
                  ≠ some ({ afterToggle model r0 s with motion := "Out" } : Impulse).edge := by
                simp [afterToggle_prev, afterToggle_edge]
                exact fun hcon => hprev hcon
              have hrp2 : r.previous_edge =
                  some ({ afterToggle model r0 s with motion := "Out" } : Impulse).edge := by
                simp [afterToggle_edge]
                exact hrp
              have := ih { afterToggle model r0 s with motion := "Out" } r hp2 hmv hrp2
              simpa [afterToggle_edge] using this
            · rw [if_neg hin] at hmv
              have hr := Option.some.inj hmv
              have : r.previous_edge = s.previous_edge := by
                rw [← hr]
                simp [afterToggle_prev]
              rw [this] at hrp
              exact absurd hrp hprev
        · rw [if_neg hb] at hmv
          have hr := Option.some.inj hmv
          have : r.previous_edge = s.previous_edge := by
            rw [← hr]
            simp [afterToggle_prev]
          rw [this] at hrp
          exact absurd hrp hprev
      | cons e es =>
        have hr := Option.some.inj hmv
        have hmot : r.motion = (afterToggle model r0 s).motion := by
          rw [← hr]; rfl
        have hedge : r.edge = chooseD r0.choiceIx (e :: es) := by
          rw [← hr]; rfl
        have hmem : r.edge ∈ e :: es := by
          rw [hedge]; exact chooseD_mem _ _ _
        constructor
        · intro hout
          have hmo : (afterToggle model r0 s).motion = "Out" := by rw [← hmot]; exact hout
          have := candidatesFor_out_mem model (afterToggle model r0 s) (e :: es) hmo hc
            r.edge hmem
          rwa [afterToggle_edge] at this
        · intro hin
          have hmi : (afterToggle model r0 s).motion = "In" := by rw [← hmot]; exact hin
          have := candidatesFor_in_mem model (afterToggle model r0 s) (e :: es) hmi hc
            r.edge hmem
          rwa [afterToggle_edge] at this

/-- Small concrete model used by witnesses: one root edge 0 (height 0,
nodes 0-1) with two outward edges 1 and 2 (heights 1 and 2) at node 1. -/
def witModel : LedModel :=
  { edges := fun e => if e = 0 then (0, 1) else if e = 1 then (1, 2) else (1, 3),
    edgeListForNodes := fun n =>
      if n = 0 then [0] else if n = 1 then [0, 1, 2] else if n = 2 then [1] else [2],
    edgeHeight := fun e => e,
    roots := [0],
    outwardAdjacency := fun e => if e = 0 then [1, 2] else [],
    addressForEdge := fun _ => "1.1",
    addressMatchesAnyP := fun _ _ => true }

/-- An impulse sitting on the root edge in outward mode. -/
def witImpulse : Impulse :=
  { color := (1, 1, 1), edge := 0, previous_edge := none, dead := false,
    motion := "Out" }

/-- The state the witness impulse reaches after one outward step. -/
def witMoved : Impulse :=
  { color := (1, 1, 1), edge := 1, previous_edge := some 0, dead := false,
    motion := "Out" }

/-- C4, witness: one outward step on the witness model moves the impulse
from edge 0 (height 0) to edge 1 (height 1). -/
theorem impulse_move_direction_check :
    witImpulse.previous_edge ≠ some witImpulse.edge ∧
    Impulse.move witModel [⟨false, 0, false⟩] witImpulse = some witMoved ∧
    witMoved.previous_edge = some witImpulse.edge ∧
    (witMoved.motion = "Out" →
      witModel.edgeHeight witImpulse.edge < witModel.edgeHeight witMoved.edge) := by
  refine ⟨by decide, by decide, by decide, ?_⟩
  exact (impulse_move_direction witModel [⟨false, 0, false⟩] witImpulse witMoved
    (by decide) (by decide) (by decide)).1

/-! ## C5 — dead ends -/

/-- C5: the dead-end lifecycle, in three parts.  (1) If the candidate list
for the current mode is empty, no loop toggle fires and the bounce draw
fails — as it always does when the bounce probability is zero — then
`move` marks the impulse dead within that single step, changing nothing
else.  (2) A dead impulse's `render` leaves the frame unchanged.  (3)
`_reap_pulses` keeps the slot count and replaces every slot holding a
dead impulse by an empty slot. -/
theorem impulse_dead_end_lifecycle :
    (∀ (model : LedModel) (r0 : MoveRand) (rest : List MoveRand) (s : Impulse),
      r0.loopHit = false → r0.bounceHit = false →
      candidatesFor model s = some [] →
      Impulse.move model (r0 :: rest) s = some { s with dead := true }) ∧
    (∀ (s : Impulse) (frame : List RGB), s.dead = true →
      Impulse.render s frame = frame) ∧
    (∀ ps : List (Option Impulse), (reap_pulses ps).length = ps.length ∧
      ∀ (i : Nat) (p : Impulse), ps.getD i none = some p → p.dead = true →
        (reap_pulses ps).getD i none = none) := by
  refine ⟨?_, ?_, ?_⟩
  · intro model r0 rest s hl hb hc
    have hat : afterToggle model r0 s = s := by
      unfold afterToggle
      rw [hl]
      simp
    rw [show Impulse.move model (r0 :: rest) s =
        (match candidatesFor model (afterToggle model r0 s) with
         | none => none
         | some [] =>
           if r0.bounceHit then
             if (afterToggle model r0 s).motion = "Out" then
               Impulse.move model rest { afterToggle model r0 s with motion := "In" }
             else if (afterToggle model r0 s).motion = "In" then
               Impulse.move model rest { afterToggle model r0 s with motion := "Out" }
             else some { afterToggle model r0 s with dead := true }
           else some { afterToggle model r0 s with dead := true }
         | some (e :: es) =>
           some (moveToAnyOf r0.choiceIx (e :: es) (afterToggle model r0 s))) from rfl]
    rw [hat, hc]
    simp [hb]
  · intro s frame hd
    simp [Impulse.render, hd]
  · intro ps
    refine ⟨by simp [reap_pulses], ?_⟩
    intro i p hp hd
    unfold reap_pulses
    rw [List.getD_eq_getElem?_getD, List.getElem?_map]
    rw [List.getD_eq_getElem?_getD] at hp
    cases hps : ps[i]? with
    | none =>
      rw [hps] at hp
      simp at hp
    | some q =>
      rw [hps] at hp
      simp only [Option.getD_some] at hp
      subst hp
      simp [hd]

/-- An impulse on the root edge in inward mode: no edge has smaller
height, so its candidate list is empty. -/
def deadEndImpulse : Impulse :=
  { color := (1, 1, 1), edge := 0, previous_edge := none, dead := false,
    motion := "In" }

/-- C5, witness: on the witness model, the inward impulse at the root has
no candidates and dies in one step with a failing bounce draw; a dead
impulse renders nothing; reaping empties its slot. -/
theorem impulse_dead_end_lifecycle_check :
    candidatesFor witModel deadEndImpulse = some [] ∧
    Impulse.move witModel [⟨false, 0, false⟩] deadEndImpulse =
      some { deadEndImpulse with dead := true } ∧
    Impulse.render { deadEndImpulse with dead := true } [(1, 0, 0)] = [(1, 0, 0)] ∧
    reap_pulses [some { deadEndImpulse with dead := true }] = [none] := by
  refine ⟨by decide, ?_, ?_, ?_⟩
  · exact impulse_dead_end_lifecycle.1 witModel ⟨false, 0, false⟩ [] deadEndImpulse
      rfl rfl (by decide)
  · exact impulse_dead_end_lifecycle.2.1 { deadEndImpulse with dead := true }
      [(1, 0, 0)] rfl
  · have h0 := (impulse_dead_end_lifecycle.2.2
      [some { deadEndImpulse with dead := true }]).2 0
      { deadEndImpulse with dead := true } rfl rfl
    rw [show reap_pulses [some { deadEndImpulse with dead := true }] =
      [(reap_pulses [some { deadEndImpulse with dead := true }]).getD 0 none] from rfl]
    rw [h0]

/-! ## C10 — the constructor ignores its motion argument -/

/-- C10: whatever string is passed as the `motion` argument, the impulse
constructor assigns the literal `"Out"`, so every newly spawned impulse
(`_spawn_pulses` passes only color and a root edge) starts in outward
mode, not yet moved, alive. -/
theorem impulse_ctor_forces_out :
    ∀ (c : RGB) (e : Nat) (m : String),
      (Impulse.init c e m).motion = "Out" ∧ (Impulse.init c e m).dead = false ∧
      (Impulse.init c e m).edge = e ∧ (Impulse.init c e m).previous_edge = none := by
  intro c e m
  exact ⟨rfl, rfl, rfl, rfl⟩

/-! ## C6 — bolt path structure -/

theorem chooseD_mem_of_ne_nil (k : Nat) (xs : List Nat) (h : xs ≠ []) :
    chooseD k xs ∈ xs := by
  cases xs with
  | nil => exact absurd rfl h
  | cons e es => exact chooseD_mem k e es

/-- One leader expansion after another, as `choose_random_path` performs
them: from a leader with outward edges, every outward-adjacent edge is
appended, the chosen next leader at full leader intensity and every other
sibling at the dimmer branch intensity; the construction stops exactly at
a leader with no outward edges. -/
inductive BoltSeg (model : LedModel) : Nat → List Nat → List ℚ → Prop where
  | stop (leader : Nat) (h : model.outwardAdjacency leader = []) :
      BoltSeg model leader [] []
  | extend (leader next : Nat) (es : List Nat) (is : List ℚ)
      (hne : model.outwardAdjacency leader ≠ [])
      (hmem : next ∈ model.outwardAdjacency leader)
      (hrest : BoltSeg model next es is) :
      BoltSeg model leader (model.outwardAdjacency leader ++ es)
        ((model.outwardAdjacency leader).map
          (fun e => if e = next then leaderIntensity else branchIntensity) ++ is)

theorem boltSegs_boltSeg (model : LedModel) (tape : Nat → Nat) :
    ∀ (fuel k leader : Nat) (es : List Nat) (is : List ℚ),
      boltSegs model tape fuel k leader = some (es, is) →
      BoltSeg model leader es is := by
  intro fuel
  induction fuel with
  | zero =>
    intro k leader es is h
    rw [boltSegs] at h
    by_cases ha : model.outwardAdjacency leader = []
    · rw [if_pos ha] at h
      obtain ⟨rfl, rfl⟩ : ([] : List Nat) = es ∧ ([] : List ℚ) = is := by
        simpa [eq_comm] using h
      exact BoltSeg.stop leader ha
    · rw [if_neg ha] at h
      exact absurd h (by simp)
  | succ fuel' ih =>
    intro k leader es is h
    rw [boltSegs] at h
    by_cases ha : model.outwardAdjacency leader = []
    · rw [if_pos ha] at h
      obtain ⟨rfl, rfl⟩ : ([] : List Nat) = es ∧ ([] : List ℚ) = is := by
        simpa [eq_comm] using h
      exact BoltSeg.stop leader ha
    · rw [if_neg ha] at h
      cases hrec : boltSegs model tape fuel' (k + 1)
          (chooseD (tape k) (model.outwardAdjacency leader)) with
      | none =>
        rw [hrec] at h
        exact absurd h (by simp)
      | some p =>
        obtain ⟨es', is'⟩ := p
        rw [hrec] at h
        obtain ⟨rfl, rfl⟩ :
            model.outwardAdjacency leader ++ es' = es ∧
            (model.outwardAdjacency leader).map
              (fun e => if e = chooseD (tape k) (model.outwardAdjacency leader)
                then leaderIntensity else branchIntensity) ++ is' = is := by
          simpa using h
        exact BoltSeg.extend leader (chooseD (tape k) (model.outwardAdjacency leader))
          es' is' ha (chooseD_mem_of_ne_nil _ _ ha) (ih (k + 1) _ es' is' hrec)

theorem leaderIntensity_ne_branchIntensity : leaderIntensity ≠ branchIntensity := by
  norm_num [leaderIntensity, branchIntensity, PULSE_INTENSITY, SECONDARY_BRANCH_INTENSITY]

theorem leader_count_one (adj : List Nat) (next : Nat)
    (hmem : next ∈ adj) (hnd : adj.Nodup) :
    (adj.map (fun e => if e = next then leaderIntensity else branchIntensity)).count
      leaderIntensity = 1 := by
  induction adj with
  | nil => simp at hmem
  | cons a adj ih =>
    rw [List.nodup_cons] at hnd
    rcases List.mem_cons.mp hmem with rfl | hmem'
    · have hzero : (adj.map
          (fun e => if e = next then leaderIntensity else branchIntensity)).count
          leaderIntensity = 0 := by
        rw [List.count_eq_zero]
        intro hin
        obtain ⟨e, he, hfe⟩ := List.mem_map.mp hin
        by_cases hee : e = next
        · exact hnd.1 (hee ▸ he)
        · rw [if_neg hee] at hfe
          exact leaderIntensity_ne_branchIntensity hfe.symm
      simp [List.count_cons, hzero]
    · have hane : a ≠ next := fun hcon => hnd.1 (hcon ▸ hmem')
      have := ih hmem' hnd.2
      simp [List.count_cons, hane, this, leaderIntensity_ne_branchIntensity]

/-- C6: structure of every generated bolt path.  For any choice tape and
any fuel bound under which the `while` loop terminates: the path starts at
the edge drawn from the root list by the uniform chooser (membership in
`roots` is proved; uniformity of the draw itself is a property of the
PRNG, modelled here by an arbitrary tape index); the first edge carries
the full leader intensity; the remainder decomposes into leader
expansions (`BoltSeg`): at each expansion every outward-adjacent edge is
appended, the chosen next leader at leader intensity and all other
siblings at the branch intensity, and the construction stops exactly at a
leader with no outward edges.  When an adjacency list has no duplicates,
exactly one edge of its expansion block carries the leader intensity.
(The path is immutable by construction: `mkBolt` computes `edges` and
`intensities` once and `update_frame` never modifies them.) -/
theorem bolt_path_structure (model : LedModel) (tape : Nat → Nat) (fuel : Nat)
    (es : List Nat) (is : List ℚ)
    (hroots : model.roots ≠ [])
    (h : choose_random_path model tape fuel = some (es, is)) :
    ∃ root, root ∈ model.roots ∧
      es.head? = some root ∧ is.head? = some leaderIntensity ∧
      (∃ es' is', es = root :: es' ∧ is = leaderIntensity :: is' ∧
        BoltSeg model root es' is') ∧
      (∀ leader next, next ∈ model.outwardAdjacency leader →
        (model.outwardAdjacency leader).Nodup →
        ((model.outwardAdjacency leader).map
            (fun e => if e = next then leaderIntensity else branchIntensity)).count
          leaderIntensity = 1) := by
  unfold choose_random_path at h
  rw [if_neg hroots] at h
  rw [Option.map_eq_some'] at h
  obtain ⟨p, hp, hfp⟩ := h
  obtain ⟨es', is'⟩ := p
  obtain ⟨rfl, rfl⟩ :
      chooseD (tape 0) model.roots :: es' = es ∧ leaderIntensity :: is' = is := by
    simpa using hfp
  refine ⟨chooseD (tape 0) model.roots, chooseD_mem_of_ne_nil _ _ hroots, rfl, rfl,
    ⟨es', is', rfl, rfl, boltSegs_boltSeg model tape fuel 1 _ es' is' hp⟩, ?_⟩
  intro leader next hmem hnd
  exact leader_count_one _ next hmem hnd

/-- C6, witness: on the witness model with the all-zeros choice tape, the
generated path is root edge 0, then the expansion block of edges 1 (next
leader, full intensity) and 2 (sibling, branch intensity). -/
theorem bolt_path_structure_check :
    witModel.roots ≠ [] ∧
    choose_random_path witModel (fun _ => 0) 2 =
      some ([0, 1, 2], [leaderIntensity, leaderIntensity, branchIntensity]) ∧
    (∃ root, root ∈ witModel.roots ∧
      ([0, 1, 2] : List Nat).head? = some root ∧
      ([leaderIntensity, leaderIntensity, branchIntensity] : List ℚ).head? =
        some leaderIntensity ∧
      (∃ es' is', ([0, 1, 2] : List Nat) = root :: es' ∧
        ([leaderIntensity, leaderIntensity, branchIntensity] : List ℚ) =
          leaderIntensity :: is' ∧
        BoltSeg witModel root es' is') ∧
      (∀ leader next, next ∈ witModel.outwardAdjacency leader →
        (witModel.outwardAdjacency leader).Nodup →
        ((witModel.outwardAdjacency leader).map
            (fun e => if e = next then leaderIntensity else branchIntensity)).count
          leaderIntensity = 1)) := by
  have hpath : choose_random_path witModel (fun _ => 0) 2 =
      some ([0, 1, 2], [leaderIntensity, leaderIntensity, branchIntensity]) := by
    simp [choose_random_path, boltSegs, witModel, chooseD]
  exact ⟨by simp [witModel], hpath,
    bolt_path_structure witModel (fun _ => 0) 2 _ _ (by simp [witModel]) hpath⟩

/-! ## C7 — storm purge and spawn -/

/-- C7: on a tick whose `last_time` is established (and nonzero — the
code's truthiness test resets a zero `last_time`), the new bolt list is
exactly the old list purged of expired bolts (kept iff
`init_time + life_time > time`) with the new bolt appended iff the spawn
inequality `(time - last_time) / bolt_every > draw` holds — so a bolt is
spawned exactly when the elapsed-over-mean ratio strictly exceeds the
uniform draw, and the purge happens on every tick, before the spawn
decision. -/
theorem storm_purge_then_spawn (time draw lt : ℚ) (nb : Bolt) (st : StormState)
    (hlt : st.last_time = some lt) (hlt0 : lt ≠ 0) :
    (stormStep time draw nb st).bolts =
      st.bolts.filter (fun b => decide (time < b.init_time + b.life_time)) ++
        (if draw < (time - lt) / st.bolt_every then [nb] else []) ∧
    (∀ b ∈ st.bolts, b.init_time + b.life_time ≤ time →
      time < nb.init_time + nb.life_time → b ∉ (stormStep time draw nb st).bolts) ∧
    (∀ b, b ∈ (stormStep time draw nb st).bolts ↔
      ((b ∈ st.bolts ∧ time < b.init_time + b.life_time) ∨
       (draw < (time - lt) / st.bolt_every ∧ b = nb))) := by
  have hbolts : (stormStep time draw nb st).bolts =
      st.bolts.filter (fun b => decide (time < b.init_time + b.life_time)) ++
        (if draw < (time - lt) / st.bolt_every then [nb] else []) := by
    unfold stormStep
    rw [hlt]
    simp only [if_neg hlt0]
  refine ⟨hbolts, ?_, ?_⟩
  · intro b hb hexp halive hin
    rw [hbolts] at hin
    rcases List.mem_append.mp hin with hin1 | hin2
    · exact absurd (of_decide_eq_true (List.mem_filter.mp hin1).2) (not_lt.mpr hexp)
    · by_cases hsp : draw < (time - lt) / st.bolt_every
      · rw [if_pos hsp] at hin2
        have : b = nb := by simpa using hin2
        rw [this] at hexp
        exact absurd halive (not_lt.mpr hexp)
      · rw [if_neg hsp] at hin2
        simp at hin2
  · intro b
    rw [hbolts]
    constructor
    · intro hin
      rcases List.mem_append.mp hin with hin1 | hin2
      · have := List.mem_filter.mp hin1
        exact Or.inl ⟨this.1, of_decide_eq_true this.2⟩
      · by_cases hsp : draw < (time - lt) / st.bolt_every
        · rw [if_pos hsp] at hin2
          exact Or.inr ⟨hsp, by simpa using hin2⟩
        · rw [if_neg hsp] at hin2
          simp at hin2
    · intro hor
      rcases hor with ⟨hb, halive⟩ | ⟨hsp, rfl⟩
      · exact List.mem_append.mpr (Or.inl (List.mem_filter.mpr ⟨hb, decide_eq_true halive⟩))
      · rw [if_pos hsp]
        exact List.mem_append.mpr (Or.inr (by simp))

/-- A bolt that has expired by time 2. -/
def oldBolt : Bolt :=
  { init_time := 0, pulse_time := 3 / 10, life_time := 11 / 20, color := boltColor,
    edges := [0], intensities := [leaderIntensity] }

/-- A freshly spawned bolt at time 2. -/
def newBolt : Bolt :=
  { init_time := 2, pulse_time := 3 / 10, life_time := 11 / 20, color := boltColor,
    edges := [0], intensities := [leaderIntensity] }

/-- C7, witness: at time 2 with `last_time = 1`, `bolt_every = 1/4` and
draw 0, the expired bolt is purged and the new bolt is spawned. -/
theorem storm_purge_then_spawn_check :
    (({ bolts := [oldBolt], last_time := some 1, bolt_every := 1 / 4 } :
        StormState).last_time = some 1) ∧
    (1 : ℚ) ≠ 0 ∧
    oldBolt.init_time + oldBolt.life_time ≤ 2 ∧
    (2 : ℚ) < newBolt.init_time + newBolt.life_time ∧
    oldBolt ∉ (stormStep 2 0 newBolt
      { bolts := [oldBolt], last_time := some 1, bolt_every := 1 / 4 }).bolts ∧
    (newBolt ∈ (stormStep 2 0 newBolt
      { bolts := [oldBolt], last_time := some 1, bolt_every := 1 / 4 }).bolts ↔
      ((newBolt ∈ [oldBolt] ∧ (2 : ℚ) < newBolt.init_time + newBolt.life_time) ∨
       ((0 : ℚ) < (2 - 1) / (1 / 4) ∧ newBolt = newBolt))) := by
  refine ⟨rfl, by norm_num, by norm_num [oldBolt], by norm_num [newBolt], ?_, ?_⟩
  · exact (storm_purge_then_spawn 2 0 1 newBolt
      { bolts := [oldBolt], last_time := some 1, bolt_every := 1 / 4 }
      rfl (by norm_num)).2.1 oldBolt (by simp) (by norm_num [oldBolt])
      (by norm_num [newBolt])
  · exact (storm_purge_then_spawn 2 0 1 newBolt
      { bolts := [oldBolt], last_time := some 1, bolt_every := 1 / 4 }
      rfl (by norm_num)).2.2 newBolt

/-! ## C8 — bolt pulse positivity and expiry -/

/-- C8: during the pulse phase (0 ≤ dt < pulse_time) the intensity factor
applied to every path position is strictly positive — the base intensity
is at least the branch intensity 0.368 while the cosine modulation at
amplitude `PULSE_INTENSITY` = 0.08 cannot cancel it — so with the storm
color every channel receives a strictly positive addition; and a bolt
whose elapsed time has reached `pulse_time + FADE_TIME` (its `life_time`)
fails the liveness filter of the next storm render pass and is excluded
from it. -/
theorem bolt_pulse_positive_expiry (b : Bolt) (cosfn : ℚ → ℚ) (time : ℚ) (i : Nat)
    (hcos : ∀ x, -1 ≤ cosfn x ∧ cosfn x ≤ 1)
    (hint : ∀ q ∈ b.intensities, branchIntensity ≤ q)
    (h0 : b.init_time ≤ time) (h1 : time - b.init_time < b.pulse_time)
    (hi : i < b.intensities.length) :
    0 < boltEdgeScale b cosfn (time - b.init_time) i ∧
    (b.color = boltColor →
      0 < (rgbScale b.color (boltEdgeScale b cosfn (time - b.init_time) i)).1 ∧
      0 < (rgbScale b.color (boltEdgeScale b cosfn (time - b.init_time) i)).2.1 ∧
      0 < (rgbScale b.color (boltEdgeScale b cosfn (time - b.init_time) i)).2.2) ∧
    (∀ (t2 d2 : ℚ) (nb : Bolt) (st : StormState),
      b.life_time = b.pulse_time + FADE_TIME →
      b.pulse_time + FADE_TIME ≤ t2 - b.init_time →
      t2 < nb.init_time + nb.life_time →
      b ∉ (stormStep t2 d2 nb st).bolts) := by
  have hbase : branchIntensity ≤ b.intensities.getD i 0 := by
    apply hint
    rw [List.getD_eq_getElem b.intensities 0 hi]
    exact List.getElem_mem hi
  have hbval : branchIntensity = 46 / 125 := by
    norm_num [branchIntensity, leaderIntensity, PULSE_INTENSITY,
      SECONDARY_BRANCH_INTENSITY]
  have hscale : 0 < boltEdgeScale b cosfn (time - b.init_time) i := by
    unfold boltEdgeScale
    rw [if_pos h1]
    have hc := (hcos (time - b.init_time)).1
    rw [hbval] at hbase
    have : -(2 / 25) ≤ cosfn (time - b.init_time) * PULSE_INTENSITY := by
      rw [show PULSE_INTENSITY = 2 / 25 from by norm_num [PULSE_INTENSITY]]
      nlinarith
    linarith
  refine ⟨hscale, ?_, ?_⟩
  · intro hcol
    rw [hcol]
    unfold rgbScale boltColor
    refine ⟨?_, ?_, ?_⟩ <;> nlinarith
  · intro t2 d2 nb st hlife hdt halive hin
    have hexp : b.init_time + b.life_time ≤ t2 := by
      rw [hlife]
      linarith
    unfold stormStep at hin
    rcases List.mem_append.mp hin with hin1 | hin2
    · exact absurd (of_decide_eq_true (List.mem_filter.mp hin1).2) (not_lt.mpr hexp)
    · have : b = nb := by
        by_cases hsp : d2 <
            (t2 - (match st.last_time with
                   | none => t2
                   | some l => if l = 0 then t2 else l)) / st.bolt_every
        · rw [if_pos hsp] at hin2
          simpa using hin2
        · rw [if_neg hsp] at hin2
          simp at hin2
      rw [this] at hexp
      exact absurd halive (not_lt.mpr hexp)

/-- C8, witness: the worst-case cosine draw (constantly -1) on a bolt with
a single leader-intensity edge still adds a positive amount at dt = 1/10,
and the same bolt is excluded from a render pass at time 1. -/
theorem bolt_pulse_positive_expiry_check :
    (∀ x : ℚ, -1 ≤ (fun _ : ℚ => (-1 : ℚ)) x ∧ (fun _ : ℚ => (-1 : ℚ)) x ≤ 1) ∧
    (∀ q ∈ oldBolt.intensities, branchIntensity ≤ q) ∧
    oldBolt.init_time ≤ 1 / 10 ∧
    (1 / 10 : ℚ) - oldBolt.init_time < oldBolt.pulse_time ∧
    0 < boltEdgeScale oldBolt (fun _ => -1) (1 / 10 - oldBolt.init_time) 0 ∧
    oldBolt ∉ (stormStep 1 0 newBolt
      { bolts := [oldBolt], last_time := some (1 / 2), bolt_every := 1 / 4 }).bolts := by
  have hcos : ∀ x : ℚ, -1 ≤ (fun _ : ℚ => (-1 : ℚ)) x ∧ (fun _ : ℚ => (-1 : ℚ)) x ≤ 1 := by
    intro x
    norm_num
  have hint : ∀ q ∈ oldBolt.intensities, branchIntensity ≤ q := by
    intro q hq
    have : q = leaderIntensity := by simpa [oldBolt] using hq
    rw [this]
    norm_num [branchIntensity, leaderIntensity, PULSE_INTENSITY,
      SECONDARY_BRANCH_INTENSITY]
  refine ⟨hcos, hint, by norm_num [oldBolt], by norm_num [oldBolt], ?_, ?_⟩
  · exact (bolt_pulse_positive_expiry oldBolt (fun _ => -1) (1 / 10) 0 hcos hint
      (by norm_num [oldBolt]) (by norm_num [oldBolt]) (by simp [oldBolt])).1
  · exact (bolt_pulse_positive_expiry oldBolt (fun _ => -1) (1 / 10) 0 hcos hint
      (by norm_num [oldBolt]) (by norm_num [oldBolt]) (by simp [oldBolt])).2.2
      1 0 newBolt { bolts := [oldBolt], last_time := some (1 / 2), bolt_every := 1 / 4 }
      (by norm_num [oldBolt, FADE_TIME]) (by norm_num [oldBolt, FADE_TIME])
      (by norm_num [newBolt])

/-! ## C9 — firefly nudge -/

theorem pymod_nonneg (x c : ℚ) (hc : 0 < c) : 0 ≤ pymod x c := by
  unfold pymod
  have h : (⌊x / c⌋ : ℚ) ≤ x / c := Int.floor_le (x / c)
  have h2 : (⌊x / c⌋ : ℚ) * c ≤ x / c * c := mul_le_mul_of_nonneg_right h (le_of_lt hc)
  rw [div_mul_cancel₀ x (ne_of_gt hc)] at h2
  linarith

theorem pymod_lt (x c : ℚ) (hc : 0 < c) : pymod x c < c := by
  unfold pymod
  have h : x / c < (⌊x / c⌋ : ℚ) + 1 := Int.lt_floor_add_one (x / c)
  have h2 : x / c * c < ((⌊x / c⌋ : ℚ) + 1) * c := mul_lt_mul_of_pos_right h hc
  rw [div_mul_cancel₀ x (ne_of_gt hc)] at h2
  nlinarith

theorem pymod_add (x d c : ℚ) (hc : 0 < c) (h0 : 0 ≤ pymod x c + d)
    (h1 : pymod x c + d < c) : pymod (x + d) c = pymod x c + d := by
  have hfl : ⌊(x + d) / c⌋ = ⌊x / c⌋ := by
    rw [Int.floor_eq_iff]
    unfold pymod at h0 h1
    constructor
    · rw [le_div_iff₀ hc]
      nlinarith
    · rw [div_lt_iff₀ hc]
      nlinarith
  unfold pymod
  rw [hfl]
  ring

theorem activation_nonneg (p : ℚ) : 0 ≤ activation p := Rat.sqrt_nonneg p

theorem activation_sq (a : ℚ) (ha : 0 ≤ a) : activation (activation_to_phi a) = a := by
  unfold activation activation_to_phi
  rw [Rat.sqrt_eq]
  exact abs_of_nonneg ha

/-- C9: a nudge never decreases the firefly's activation at the moment of
the nudge, and never pushes it past the firing threshold 1 (an activation
already at or above 1 is left untouched: the nudge body only runs when
activation < 1, and otherwise raises it to `min (a + NUDGE) 1 ≤ 1`). -/
theorem firefly_nudge_monotone (t : ℚ) (fly : Firefly) :
    activation (phi t fly.offset) ≤ activation (phi t (Firefly.nudge t fly).offset) ∧
    activation (phi t (Firefly.nudge t fly).offset) ≤
      max (activation (phi t fly.offset)) 1 := by
  by_cases h : activation (phi t fly.offset) < 1
  · set p := phi t fly.offset with hp
    set a := activation p with ha
    set a2 := min (a + NUDGE) 1 with ha2def
    set p2 := activation_to_phi a2 with hp2def
    have hoffs : (Firefly.nudge t fly).offset =
        fly.offset + max (p2 - p) 0 * CYCLE_TIME := by
      unfold Firefly.nudge
      rw [if_pos h]
      unfold Firefly.update
      split_ifs <;> rfl
    rcases le_or_lt p2 p with hle | hlt
    · have hmax : max (p2 - p) 0 = 0 := max_eq_right (by linarith)
      rw [hoffs, hmax, zero_mul, add_zero]
      exact ⟨le_refl _, le_max_left _ _⟩
    · have hmax : max (p2 - p) 0 = p2 - p := max_eq_left (by linarith)
      have hC : (0 : ℚ) < CYCLE_TIME := by norm_num [CYCLE_TIME]
      have ha0 : 0 ≤ a := activation_nonneg p
      have hN : (0 : ℚ) ≤ NUDGE := by norm_num [NUDGE]
      have ha2a : a ≤ a2 := le_min (by linarith) (le_of_lt h)
      have ha2nn : 0 ≤ a2 := le_trans ha0 ha2a
      have ha21 : a2 ≤ 1 := min_le_right _ _
      have hp21 : p2 ≤ 1 := by
        rw [hp2def]
        unfold activation_to_phi
        nlinarith
      have hm : pymod (t + fly.offset) CYCLE_TIME = (p - 1 / 100) * CYCLE_TIME := by
        rw [hp]
        unfold phi
        field_simp
        ring
      have hlower : 0 ≤ pymod (t + fly.offset) CYCLE_TIME + (p2 - p) * CYCLE_TIME := by
        have := pymod_nonneg (t + fly.offset) CYCLE_TIME hC
        nlinarith
      have hupper : pymod (t + fly.offset) CYCLE_TIME + (p2 - p) * CYCLE_TIME <
          CYCLE_TIME := by
        rw [hm]
        nlinarith
      have hmod := pymod_add (t + fly.offset) ((p2 - p) * CYCLE_TIME) CYCLE_TIME hC
        hlower hupper
      have hphi : phi t ((Firefly.nudge t fly).offset) = p2 := by
        rw [hoffs, hmax]
        unfold phi
        rw [show t + (fly.offset + (p2 - p) * CYCLE_TIME) =
          t + fly.offset + (p2 - p) * CYCLE_TIME from by ring]
        rw [hmod, hm]
        field_simp
        ring
      have hact : activation p2 = a2 := by
        rw [hp2def]
        exact activation_sq a2 ha2nn
      rw [hphi, hact]
      exact ⟨ha2a, le_trans ha21 (le_max_right _ _)⟩
  · have : Firefly.nudge t fly = fly := by
      unfold Firefly.nudge
      rw [if_neg h]
    rw [this]
    exact ⟨le_refl _, le_max_left _ _⟩
